import Mathlib

/-!
Shallow embedding of `src/ais_monitor.py` (a Gulf-of-Finland AIS geofence
monitor) and proofs about its core logic: breach detection
(`check_geofence`), alert cooldown (`send_alert`), the SQLite trail store
(`save_positions` / `build_trails`), age-based pruning, the freshness
filter and display-name resolution in `fetch_vessels`.

Modelling conventions:
- geographic coordinates are integers (any fixed decimal scaling of the
  Python floats; every comparison the code performs is order-exact under
  such an embedding), speeds over ground are rationals — the code only
  compares them, never computes with them;
- instants are integers: `time.time()` for the cooldown cache, the
  ISO-8601 strings of the trail store (which compare chronologically),
  epoch milliseconds for the feed's `timestampExternal`;
- the two spots where the Python divides — the even-odd ray cast and
  the freshness age `(time.time() - ts/1000)/60` — are embedded as the
  cross-multiplied comparisons that are equivalent over the ordered
  field of reals, so no rounding is introduced;
- the SQLite `positions` table with `PRIMARY KEY (mmsi, timestamp)` is a
  list of records, `INSERT OR REPLACE` removes any row with the same key
  and appends the new one;
- the in-memory `_alert_cache` dict is a function `Nat → Option Int`;
- shapely's `Polygon.contains` is the OGC `contains` predicate: true
  exactly on the open interior of the polygon, false on its boundary.
-/

namespace AisMonitor

/-- A normalized vessel observation, mirroring class `Vessel` in
`ais_monitor.py` (fields `mmsi`, `name`, `lat`, `lon`, `sog`, `cog`,
`heading`, `timestamp`). -/
structure Vessel where
  mmsi : Nat
  name : String
  lat : Int
  lon : Int
  sog : ℚ
  cog : ℚ
  heading : ℚ
  timestamp : Int
  deriving DecidableEq, Repr

/-- A planar point, coordinate order `(x, y)` i.e. `(lon, lat)`. -/
abbrev Pt : Type := Int × Int

/-- Edges of a polygon ring given by its vertex list: each vertex paired
with its cyclic successor (the closing edge included). -/
def polyEdges (poly : List Pt) : List (Pt × Pt) :=
  poly.zip (poly.rotate 1)

/-- `onSegment a b p` : the point `p` lies on the closed segment from `a`
to `b` (collinearity plus bounding-box membership). -/
def onSegment (a b p : Pt) : Bool :=
  decide ((b.1 - a.1) * (p.2 - a.2) = (b.2 - a.2) * (p.1 - a.1) ∧
    min a.1 b.1 ≤ p.1 ∧ p.1 ≤ max a.1 b.1 ∧
    min a.2 b.2 ≤ p.2 ∧ p.2 ≤ max a.2 b.2)

/-- The point lies on the boundary of the polygon ring. -/
def pointOnBoundary (poly : List Pt) (p : Pt) : Bool :=
  (polyEdges poly).any (fun e => onSegment e.1 e.2 p)

/-- One step of the even-odd ray cast for an edge `(a, b)`: the edge
straddles the horizontal line through `p` and the crossing lies to the
right of `p`. The textbook real-arithmetic condition
`p.x < (b.x - a.x) * (p.y - a.y) / (b.y - a.y) + a.x` is embedded
multiplied through by `b.y - a.y` (nonzero whenever the straddle test
holds), with the comparison flipped when that factor is negative. -/
def edgeCrossesRay (p : Pt) (e : Pt × Pt) : Bool :=
  let a := e.1
  let b := e.2
  decide (((a.2 > p.2) ≠ (b.2 > p.2)) ∧
    (if 0 < b.2 - a.2 then
      (p.1 - a.1) * (b.2 - a.2) < (b.1 - a.1) * (p.2 - a.2)
    else
      (b.1 - a.1) * (p.2 - a.2) < (p.1 - a.1) * (b.2 - a.2)))

/-- Even-odd (crossing-number) test: the ray from `p` crosses the ring an
odd number of times. For a simple ring and `p` off the boundary this
characterises the interior. -/
def windingOdd (poly : List Pt) (p : Pt) : Bool :=
  ((polyEdges poly).countP (edgeCrossesRay p)) % 2 == 1

/-- Models shapely's `polygon.contains(Point(lon, lat))` as called at
line 315 of `ais_monitor.py`, for a simple ring polygon: true exactly
when the point lies in the open interior. shapely implements the OGC
(DE-9IM) `contains` predicate, under which a point of the boundary is
NOT contained (shapely's inclusive variant would be `covers`, which the
code does not use). -/
def polyContains (poly : List Pt) (lon lat : Int) : Bool :=
  !pointOnBoundary poly (lon, lat) && windingOdd poly (lon, lat)

/-- `check_geofence` (lines 309-321): keep the vessels inside the polygon
whose speed over ground is not below the configured minimum
(`CONFIG.email.min_speed_knots`, passed here explicitly); vessels inside
but slower are skipped as stationary. -/
def check_geofence (vessels : List Vessel) (poly : List Pt) (minSpeed : ℚ) :
    List Vessel :=
  vessels.filter (fun v =>
    polyContains poly v.lon v.lat && !(decide (v.sog < minSpeed)))

/-- The in-memory `_alert_cache` dict: vessel MMSI to instant of the last
successfully dispatched alert. -/
abbrev AlertCache : Type := Nat → Option Int

/-- The cooldown gate of `send_alert` (lines 330-333): the alert is
permitted unless the cache holds an instant less than `cooldown` old. -/
def shouldAlert (cache : AlertCache) (mmsi : Nat) (now cooldown : Int) :
    Bool :=
  match cache mmsi with
  | none => true
  | some last => decide (¬(now - last < cooldown))

/-- `_alert_cache[vessel.mmsi] = now` (line 368). -/
def recordAlertSent (cache : AlertCache) (mmsi : Nat) (now : Int) :
    AlertCache :=
  fun m => if m = mmsi then some now else cache m

/-- Outcome of one `send_alert` call. -/
inductive SendStatus where
  | cooldownSuppressed
  | notConfigured
  | sendFailed
  | sent
  deriving DecidableEq, Repr

/-- `send_alert` (lines 325-374). Environment facts the Python reads or
encounters are explicit arguments: `passwordSet` is the truthiness of
`CONFIG.email.password`, `smtpOk` tells whether the SMTP dispatch
succeeds or raises. The cache is updated (via `recordAlertSent`) only on
the successful-dispatch path; every other path returns the cache
untouched. -/
def send_alert (cache : AlertCache) (mmsi : Nat) (now cooldown : Int)
    (passwordSet smtpOk : Bool) : SendStatus × AlertCache :=
  if shouldAlert cache mmsi now cooldown = false then
    (SendStatus.cooldownSuppressed, cache)
  else if passwordSet = false then
    (SendStatus.notConfigured, cache)
  else if smtpOk then
    (SendStatus.sent, recordAlertSent cache mmsi now)
  else
    (SendStatus.sendFailed, cache)

/-- A row of the SQLite `positions` table (`init_db`, lines 212-222):
`PRIMARY KEY (mmsi, timestamp)`. Timestamps are integers standing for
the ISO-8601 strings the code stores, which compare chronologically. -/
structure PosRec where
  mmsi : Nat
  timestamp : Int
  lat : Int
  lon : Int
  sog : ℚ
  cog : ℚ
  deriving DecidableEq, Repr

/-- Placeholder row used only as the default of `List.headD` /
`List.getLastD` on lists proved non-empty. -/
def defaultRec : PosRec := ⟨0, 0, 0, 0, 0, 0⟩

/-- Key predicate: the row has primary key `(m, t)`. -/
def hasKey (m : Nat) (t : Int) (r : PosRec) : Bool :=
  r.mmsi == m && r.timestamp == t

/-- `INSERT OR REPLACE INTO positions` (lines 242-246): SQLite deletes
any row conflicting on the primary key, then inserts the new row. -/
def insertOrReplace (db : List PosRec) (r : PosRec) : List PosRec :=
  db.filter (fun q => !hasKey r.mmsi r.timestamp q) ++ [r]

/-- The row `save_positions` writes for vessel `v` at ingestion instant
`now` (note: `now`, not the vessel's own feed timestamp). -/
def vesselRow (v : Vessel) (now : Int) : PosRec :=
  ⟨v.mmsi, now, v.lat, v.lon, v.sog, v.cog⟩

/-- `DELETE FROM positions WHERE timestamp < cutoff` (line 254). -/
def prunePositions (db : List PosRec) (cutoff : Int) : List PosRec :=
  db.filter (fun r => !(decide (r.timestamp < cutoff)))

/-- The insert loop of `save_positions` (lines 240-246): one upsert per
vessel, all keyed by the single ingestion instant `now`. -/
def insertAll (db : List PosRec) (vessels : List Vessel) (now : Int) :
    List PosRec :=
  vessels.foldl (fun d v => insertOrReplace d (vesselRow v now)) db

/-- The primary key of a row. -/
def keyOf (r : PosRec) : Nat × Int := (r.mmsi, r.timestamp)

/-- `save_positions` (lines 229-257): early return on an empty vessel
list; otherwise upsert one row per vessel, all keyed by the single
ingestion instant `now`, then prune rows older than
`now - horizon` (`horizon` models `trail_hours` as a duration). -/
def save_positions (db : List PosRec) (vessels : List Vessel)
    (now horizon : Int) : List PosRec :=
  if vessels = [] then db
  else prunePositions (insertAll db vessels now) (now - horizon)

/-- `SELECT ... FROM positions WHERE mmsi = ?` : the rows of one vessel. -/
def positionsFor (db : List PosRec) (m : Nat) : List PosRec :=
  db.filter (fun r => r.mmsi == m)

/-- Row order used by `ORDER BY timestamp`. -/
def tsLE (a b : PosRec) : Prop := a.timestamp ≤ b.timestamp

instance : DecidableRel tsLE := fun a b =>
  inferInstanceAs (Decidable (a.timestamp ≤ b.timestamp))

instance : IsTotal PosRec tsLE :=
  ⟨fun a b => le_total a.timestamp b.timestamp⟩

instance : IsTrans PosRec tsLE :=
  ⟨fun _ _ _ h₁ h₂ => le_trans h₁ h₂⟩

/-- A vessel's rows ordered by timestamp ascending
(`ORDER BY timestamp`, line 286). -/
def sortedPositions (db : List PosRec) (m : Nat) : List PosRec :=
  (positionsFor db m).insertionSort tsLE

/-- `GROUP BY mmsi HAVING cnt > 1` (lines 272-278): the distinct MMSIs
having more than one stored row. -/
def trailMmsis (db : List PosRec) : List Nat :=
  ((db.map PosRec.mmsi).dedup).filter (fun m => 1 < (positionsFor db m).length)

/-- One LineString trail feature produced by `build_trails`
(lines 295-304): coordinate pairs `[lon, lat]`, point count, first and
last timestamps of the ordered path. -/
structure TrailFeature where
  mmsi : Nat
  coordinates : List (Int × Int)
  points : Nat
  start : Int
  stop : Int
  deriving DecidableEq, Repr

/-- The body of the per-MMSI loop of `build_trails` (lines 281-304):
fetch the vessel's rows ordered by timestamp, skip if fewer than two,
otherwise emit the trail feature. -/
def mkTrail (db : List PosRec) (m : Nat) : Option TrailFeature :=
  let ps := sortedPositions db m
  if ps.length < 2 then none
  else some
    { mmsi := m
      coordinates := ps.map (fun r => (r.lon, r.lat))
      points := ps.length
      start := (ps.headD defaultRec).timestamp
      stop := (ps.getLastD defaultRec).timestamp }

/-- `build_trails` (lines 262-307): one feature per MMSI that has more
than one stored row. -/
def build_trails (db : List PosRec) : List TrailFeature :=
  (trailMmsis db).filterMap (mkTrail db)

/-- The bounding box `CONFIG.bbox` (bounds in the same scaled integer
coordinates as the points). -/
structure Bbox where
  latmin : Int
  latmax : Int
  lonmin : Int
  lonmax : Int
  deriving Repr

/-- A raw GeoJSON feature from the AIS feed as `fetch_vessels` reads it:
geometry type and coordinate list, plus the properties the code uses.
`name` is `Option`al (`props.get('name')` may yield `None`);
`tsExt` is `props.get('timestampExternal', 0)` in epoch milliseconds,
`0` standing for an absent value exactly as the Python default does. -/
structure RawFeature where
  geomType : String
  coordinates : List Int
  mmsi : Nat
  name : Option String
  tsExt : Int
  sog : ℚ
  cog : ℚ
  heading : ℚ
  deriving Repr

/-- `Vessel.__init__` name fallback (line 64):
`data.get('name') or f'MMSI-{self.mmsi}'` — Python `or` falls through on
`None` and on the empty string. -/
def vesselName (rawName : Option String) (mmsi : Nat) : String :=
  match rawName with
  | none => "MMSI-" ++ toString mmsi
  | some s => if s = "" then "MMSI-" ++ toString mmsi else s

/-- The freshness test of `fetch_vessels` (lines 159-162): the record is
stale when `age_minutes = (time.time() - ts/1000)/60` exceeds
`CONFIG.max_age_minutes`. The division-free comparison below is the
same inequality multiplied through by the positive constant `60000`
(`nowSec` in seconds, `tsExt` in milliseconds, `maxAgeMin` in minutes),
hence order-exact. -/
def isStale (nowSec tsExt maxAgeMin : Int) : Bool :=
  decide (60000 * maxAgeMin < 1000 * nowSec - tsExt)

/-- The per-feature body of the `fetch_vessels` loop (lines 136-178).
`meta` is the `_vessel_metadata` lookup restricted to names
(`_vessel_metadata[mmsi]['name']`; `none` = MMSI absent from the dict),
`nowSec` is `time.time()` in seconds, `maxAgeMin` is
`CONFIG.max_age_minutes`. Returns `none` when the feature is skipped
(non-point geometry, short coordinate list, outside the bbox, or stale),
otherwise the constructed `Vessel`. -/
def processFeature (meta : Nat → Option String) (bbox : Bbox)
    (nowSec maxAgeMin : Int) (f : RawFeature) : Option Vessel :=
  if f.geomType ≠ "Point" then none
  else if f.coordinates.length < 2 then none
  else if ¬(bbox.latmin ≤ f.coordinates.getD 1 0 ∧
            f.coordinates.getD 1 0 ≤ bbox.latmax ∧
            bbox.lonmin ≤ f.coordinates.headD 0 ∧
            f.coordinates.headD 0 ≤ bbox.lonmax) then none
  else if f.tsExt ≠ 0 ∧ isStale nowSec f.tsExt maxAgeMin then none
  else
    some
      { mmsi := f.mmsi
        name := vesselName
          (match meta f.mmsi with
           | some s => if s ≠ "" then some s else f.name
           | none => f.name) f.mmsi
        lat := f.coordinates.getD 1 0
        lon := f.coordinates.headD 0
        sog := f.sog
        cog := f.cog
        heading := f.heading
        timestamp := f.tsExt }

/-! ## Theorems -/

/-- Claim C10: calling `save_positions` with an empty observation list
leaves the store completely unchanged — no row is inserted and the
age-based pruning does not run either, so over-age rows survive until a
cycle that has at least one observation. -/
theorem save_positions_empty_frame (db : List PosRec) (now horizon : Int) :
    save_positions db [] now horizon = db := by
  simp [save_positions]

/-- Claim C7: after pruning with retention horizon `h` at instant `now`,
the store is exactly the in-order sublist of rows whose key timestamp is
within the horizon: every surviving row has age at most `h`, every row
within the horizon survives, and nothing outside the old store appears. -/
theorem prunePositions_spec (db : List PosRec) (now h : Int) :
    (prunePositions db (now - h) =
      db.filter (fun r => decide (now - r.timestamp ≤ h))) ∧
    (∀ r ∈ prunePositions db (now - h), now - r.timestamp ≤ h) ∧
    (∀ r ∈ db, now - r.timestamp ≤ h → r ∈ prunePositions db (now - h)) ∧
    (∀ r ∈ prunePositions db (now - h), r ∈ db) := by
  have key : ∀ r : PosRec,
      (!(decide (r.timestamp < now - h))) = decide (now - r.timestamp ≤ h) := by
    intro r
    rw [← decide_not, decide_eq_decide]
    omega
  refine ⟨?_, ?_, ?_, ?_⟩
  · exact List.filter_congr (fun r _ => key r)
  · intro r hr
    rw [prunePositions, List.mem_filter] at hr
    have := hr.2
    rw [key r, decide_eq_true_eq] at this
    exact this
  · intro r hr hage
    rw [prunePositions, List.mem_filter, key r]
    exact ⟨hr, decide_eq_true hage⟩
  · intro r hr
    exact (List.mem_filter.mp hr).1

/-- Witness for C7 at a concrete store: with `now = 12` and horizon `5`,
the row stamped `0` is deleted and the row stamped `10` survives. -/
theorem prunePositions_spec_witness :
    (12 : Int) - (10 : Int) ≤ 5 ∧
    (⟨2, 10, 0, 0, 0, 0⟩ : PosRec) ∈
      prunePositions [⟨1, 0, 0, 0, 0, 0⟩, ⟨2, 10, 0, 0, 0, 0⟩] (12 - 5) ∧
    (∀ r ∈ prunePositions
      [(⟨1, 0, 0, 0, 0, 0⟩ : PosRec), ⟨2, 10, 0, 0, 0, 0⟩] (12 - 5),
      (12 : Int) - r.timestamp ≤ 5) :=
  ⟨by decide,
   (prunePositions_spec [⟨1, 0, 0, 0, 0, 0⟩, ⟨2, 10, 0, 0, 0, 0⟩] 12 5).2.2.1
     ⟨2, 10, 0, 0, 0, 0⟩ (by decide) (by decide),
   (prunePositions_spec [⟨1, 0, 0, 0, 0, 0⟩, ⟨2, 10, 0, 0, 0, 0⟩] 12 5).2.1⟩

/-- Claim C1: `check_geofence` classifies an observation as a breach iff
the polygon contains the point `(lon, lat)` and `sog` is at least the
minimum-speed threshold; in particular speed exactly equal to the
threshold is a breach (inclusive bound), and speed `0` inside the
polygon is never a breach for a positive threshold. -/
theorem check_geofence_spec (vessels : List Vessel) (poly : List Pt)
    (minSpeed : ℚ) (v : Vessel) :
    (v ∈ check_geofence vessels poly minSpeed ↔
      v ∈ vessels ∧ polyContains poly v.lon v.lat = true ∧ minSpeed ≤ v.sog) ∧
    (v ∈ vessels → polyContains poly v.lon v.lat = true → v.sog = minSpeed →
      v ∈ check_geofence vessels poly minSpeed) ∧
    (0 < minSpeed → v.sog = 0 → polyContains poly v.lon v.lat = true →
      v ∉ check_geofence vessels poly minSpeed) := by
  have hiff : v ∈ check_geofence vessels poly minSpeed ↔
      v ∈ vessels ∧ polyContains poly v.lon v.lat = true ∧ minSpeed ≤ v.sog := by
    simp only [check_geofence, List.mem_filter, Bool.and_eq_true,
      Bool.not_eq_true', decide_eq_false_iff_not, not_lt, and_assoc]
  refine ⟨hiff, ?_, ?_⟩
  · intro hv hin heq
    exact hiff.mpr ⟨hv, hin, le_of_eq heq.symm⟩
  · intro hpos hzero _ hmem
    have := (hiff.mp hmem).2.2
    rw [hzero] at this
    exact absurd this (not_le.mpr hpos)

/-- Witness for C1 on a concrete square fence: a vessel at `(2, 2)` with
speed exactly the threshold `1` is a breach, and one with speed `0` at
the same point is not. -/
theorem check_geofence_spec_witness :
    (⟨1, "A", 2, 2, 1, 0, 0, 0⟩ : Vessel) ∈
      check_geofence [⟨1, "A", 2, 2, 1, 0, 0, 0⟩]
        [((0 : Int), (0 : Int)), (4, 0), (4, 4), (0, 4)] 1 ∧
    (⟨2, "B", 2, 2, 0, 0, 0, 0⟩ : Vessel) ∉
      check_geofence [⟨2, "B", 2, 2, 0, 0, 0, 0⟩]
        [((0 : Int), (0 : Int)), (4, 0), (4, 4), (0, 4)] 1 :=
  ⟨(check_geofence_spec [⟨1, "A", 2, 2, 1, 0, 0, 0⟩]
      [((0 : Int), (0 : Int)), (4, 0), (4, 4), (0, 4)] 1
      ⟨1, "A", 2, 2, 1, 0, 0, 0⟩).2.1 (by simp) (by decide) rfl,
   (check_geofence_spec [⟨2, "B", 2, 2, 0, 0, 0, 0⟩]
      [((0 : Int), (0 : Int)), (4, 0), (4, 4), (0, 4)] 1
      ⟨2, "B", 2, 2, 0, 0, 0, 0⟩).2.2 (by decide) rfl (by decide)⟩

/-- Claim C4, counterexample: the point `(0, 2)` lies on the boundary of
the square fence `(0,0)-(4,4)` yet the containment test rejects it, and
a vessel sitting there with qualifying speed `5` is not reported as a
breach — the code's convention is "on-boundary counts as outside", not
"inside" as claimed. -/
theorem boundary_convention_cex :
    pointOnBoundary [((0 : Int), (0 : Int)), (4, 0), (4, 4), (0, 4)]
      (0, 2) = true ∧
    polyContains [((0 : Int), (0 : Int)), (4, 0), (4, 4), (0, 4)]
      0 2 = false ∧
    check_geofence [⟨1, "V", 2, 0, 5, 0, 0, 0⟩]
      [((0 : Int), (0 : Int)), (4, 0), (4, 4), (0, 4)] 1 = [] := by
  decide

/-- Claim C4, amended: the containment test treats a point exactly on
the polygon boundary as OUTSIDE, and applies this convention uniformly
to every boundary point, so a vessel on the fence line is never
classified as a breach regardless of speed. -/
theorem boundary_outside_uniform (poly : List Pt) (x y : Int)
    (hb : pointOnBoundary poly (x, y) = true) :
    polyContains poly x y = false ∧
    ∀ (vessels : List Vessel) (minSpeed : ℚ) (v : Vessel),
      v.lon = x → v.lat = y → v ∉ check_geofence vessels poly minSpeed := by
  have hc : polyContains poly x y = false := by
    rw [polyContains, hb]
    rfl
  refine ⟨hc, ?_⟩
  intro vessels minSpeed v h1 h2 hmem
  rw [check_geofence, List.mem_filter, Bool.and_eq_true] at hmem
  rw [h1, h2, hc] at hmem
  exact Bool.false_ne_true hmem.2.1

/-- Witness for C4's amended theorem at the concrete square fence and
boundary point `(0, 2)`. -/
theorem boundary_outside_uniform_witness :
    polyContains [((0 : Int), (0 : Int)), (4, 0), (4, 4), (0, 4)]
      0 2 = false ∧
    (⟨1, "V", 2, 0, 5, 0, 0, 0⟩ : Vessel) ∉
      check_geofence [⟨1, "V", 2, 0, 5, 0, 0, 0⟩]
        [((0 : Int), (0 : Int)), (4, 0), (4, 4), (0, 4)] 1 :=
  ⟨(boundary_outside_uniform
      [((0 : Int), (0 : Int)), (4, 0), (4, 4), (0, 4)] 0 2 (by decide)).1,
   (boundary_outside_uniform
      [((0 : Int), (0 : Int)), (4, 0), (4, 4), (0, 4)] 0 2 (by decide)).2
     [⟨1, "V", 2, 0, 5, 0, 0, 0⟩] 1 ⟨1, "V", 2, 0, 5, 0, 0, 0⟩ rfl rfl⟩

/-- Claim C2: the cooldown cache is updated only on a successful
dispatch. Whenever `send_alert` does not return `sent` — the dispatch
raised, or email is unconfigured, or the call was suppressed — the cache
is returned unchanged; consequently after a qualifying breach whose send
failed, a later qualifying breach is gated exactly as if the failed call
had never happened, so both attempt to notify. -/
theorem send_alert_failure_no_cooldown (cache : AlertCache) (mmsi : Nat)
    (now cooldown : Int) (passwordSet smtpOk : Bool) :
    ((send_alert cache mmsi now cooldown passwordSet smtpOk).1 ≠
        SendStatus.sent →
      (send_alert cache mmsi now cooldown passwordSet smtpOk).2 = cache) ∧
    (shouldAlert cache mmsi now cooldown = true →
      (passwordSet = false ∨ smtpOk = false) →
      (send_alert cache mmsi now cooldown passwordSet smtpOk).1 ≠
        SendStatus.cooldownSuppressed ∧
      ∀ now₂ : Int,
        shouldAlert (send_alert cache mmsi now cooldown passwordSet smtpOk).2
          mmsi now₂ cooldown = shouldAlert cache mmsi now₂ cooldown) := by
  constructor
  · intro hns
    by_cases h1 : shouldAlert cache mmsi now cooldown = false
    · rw [send_alert, if_pos h1]
    · by_cases h2 : passwordSet = false
      · rw [send_alert, if_neg h1, if_pos h2]
      · by_cases h3 : smtpOk = true
        · exact absurd (by rw [send_alert, if_neg h1, if_neg h2, if_pos h3])
            hns
        · rw [send_alert, if_neg h1, if_neg h2, if_neg h3]
  · intro hsa hfail
    have hsa' : ¬(shouldAlert cache mmsi now cooldown = false) := by
      rw [hsa]; exact Bool.true_eq_false ▸ (by simp)
    rw [send_alert, if_neg hsa']
    rcases hfail with hp | hs
    · rw [if_pos hp]
      exact ⟨by simp, fun _ => rfl⟩
    · by_cases hp : passwordSet = false
      · rw [if_pos hp]
        exact ⟨by simp, fun _ => rfl⟩
      · rw [if_neg hp, hs, if_neg (by simp)]
        exact ⟨by simp, fun _ => rfl⟩

/-- Witness for C2: fresh cache, configured email, SMTP dispatch fails —
the call attempts (is not suppressed) and a second qualifying call is
gated exactly as before the failure. -/
theorem send_alert_failure_no_cooldown_witness :
    (send_alert (fun _ => none) 7 100 3600 true false).2 = (fun _ => none) ∧
    (send_alert (fun _ => none) 7 100 3600 true false).1 ≠
      SendStatus.cooldownSuppressed ∧
    shouldAlert (send_alert (fun _ => none) 7 100 3600 true false).2
      7 200 3600 = shouldAlert (fun _ => none) 7 200 3600 :=
  ⟨(send_alert_failure_no_cooldown (fun _ => none) 7 100 3600 true false).1
     (by decide),
   ((send_alert_failure_no_cooldown (fun _ => none) 7 100 3600 true false).2
     rfl (Or.inr rfl)).1,
   ((send_alert_failure_no_cooldown (fun _ => none) 7 100 3600 true false).2
     rfl (Or.inr rfl)).2 200⟩

/-- Claim C3: the cooldown gate permits an alert iff no prior alert
instant is recorded for the vessel or at least `cooldown` has elapsed
since it; a fresh vessel id is permitted, a call immediately after a
recorded dispatch is suppressed (for a positive cooldown), and it is
permitted again exactly once the cooldown has elapsed. -/
theorem shouldAlert_spec (cache : AlertCache) (mmsi : Nat)
    (now t cooldown : Int) :
    (shouldAlert cache mmsi now cooldown = true ↔
      cache mmsi = none ∨
        ∃ last, cache mmsi = some last ∧ cooldown ≤ now - last) ∧
    (cache mmsi = none → shouldAlert cache mmsi now cooldown = true) ∧
    (0 < cooldown →
      shouldAlert (recordAlertSent cache mmsi t) mmsi t cooldown = false) ∧
    (shouldAlert (recordAlertSent cache mmsi t) mmsi now cooldown = true ↔
      cooldown ≤ now - t) := by
  have hrec : recordAlertSent cache mmsi t mmsi = some t := by
    simp [recordAlertSent]
  refine ⟨?_, ?_, ?_, ?_⟩
  · rw [shouldAlert]
    cases hcm : cache mmsi with
    | none => simp
    | some last =>
      simp only [hcm, decide_eq_true_eq, not_lt, Option.some.injEq,
        reduceCtorEq, false_or]
      constructor
      · intro hle
        exact ⟨last, rfl, hle⟩
      · rintro ⟨last', hl, hle⟩
        omega
  · intro hcm
    rw [shouldAlert, hcm]
  · intro hpos
    rw [shouldAlert, hrec, decide_eq_false_iff_not, not_not]
    omega
  · rw [shouldAlert, hrec, decide_eq_true_eq, not_lt]

/-- Witness for C3: fresh id `1` is permitted at any instant; right
after recording a dispatch at `0` it is suppressed for a one-hour
cooldown; at `3600` it is permitted again. -/
theorem shouldAlert_spec_witness :
    shouldAlert (fun _ => none) 1 5 3600 = true ∧
    shouldAlert (recordAlertSent (fun _ => none) 1 0) 1 0 3600 = false ∧
    shouldAlert (recordAlertSent (fun _ => none) 1 0) 1 3600 3600 = true :=
  ⟨(shouldAlert_spec (fun _ => none) 1 5 0 3600).2.1 rfl,
   (shouldAlert_spec (fun _ => none) 1 0 0 3600).2.2.1 (by decide),
   (shouldAlert_spec (fun _ => none) 1 3600 0 3600).2.2.2.mpr (by decide)⟩

/-- Counting under a filter that can only discard rows the counted
predicate already rejects leaves the count unchanged. -/
theorem countP_filter_of_imp {α : Type} (p q : α → Bool) (l : List α)
    (h : ∀ a, p a = true → q a = true) :
    (l.filter q).countP p = l.countP p := by
  induction l with
  | nil => rfl
  | cons a l ih =>
    rw [List.filter_cons, List.countP_cons]
    by_cases hq : q a = true
    · rw [if_pos hq, List.countP_cons, ih]
    · rw [if_neg hq, ih]
      have hp : ¬(p a = true) := fun hpa => hq (h a hpa)
      simp [hp]

/-- A row matches its own key. -/
theorem hasKey_self (r : PosRec) : hasKey r.mmsi r.timestamp r = true := by
  simp [hasKey]

/-- A row matching a key has that key. -/
theorem hasKey_eq_key {m : Nat} {t : Int} {r : PosRec}
    (h : hasKey m t r = true) : r.mmsi = m ∧ r.timestamp = t := by
  simpa [hasKey] using h

/-- Upserting a row leaves exactly one row with its key, whatever was
in the table before. -/
theorem countP_insertOrReplace_self (db : List PosRec) (r : PosRec) :
    (insertOrReplace db r).countP (hasKey r.mmsi r.timestamp) = 1 := by
  rw [insertOrReplace, List.countP_append]
  have h0 : (db.filter fun q => !hasKey r.mmsi r.timestamp q).countP
      (hasKey r.mmsi r.timestamp) = 0 := by
    rw [List.countP_eq_zero]
    intro a ha
    have h2 := (List.mem_filter.mp ha).2
    rw [Bool.not_eq_true'] at h2
    simp [h2]
  rw [h0]
  simp [hasKey_self]

/-- Upserting a row does not change the count of any other key. -/
theorem countP_insertOrReplace_ne (db : List PosRec) (r : PosRec)
    (m : Nat) (t : Int) (h : ¬(r.mmsi = m ∧ r.timestamp = t)) :
    (insertOrReplace db r).countP (hasKey m t) = db.countP (hasKey m t) := by
  have hf : hasKey m t r = false := by
    rw [Bool.eq_false_iff]
    intro hc
    exact h (hasKey_eq_key hc)
  rw [insertOrReplace, List.countP_append,
    countP_filter_of_imp _ _ _ (fun a ha => ?_)]
  · simp [hf]
  · rw [Bool.not_eq_true', Bool.eq_false_iff]
    intro hc
    rcases hasKey_eq_key ha with ⟨h1, h2⟩
    rcases hasKey_eq_key hc with ⟨h3, h4⟩
    exact h ⟨by omega, by omega⟩

theorem insertAll_nil (db : List PosRec) (now : Int) :
    insertAll db [] now = db := rfl

theorem insertAll_cons (db : List PosRec) (w : Vessel) (ws : List Vessel)
    (now : Int) :
    insertAll db (w :: ws) now =
      insertAll (insertOrReplace db (vesselRow w now)) ws now := rfl

/-- Inserting rows only for other MMSIs does not change the count of a
key. All inserted rows carry timestamp `now`, so only the MMSI can
collide. -/
theorem countP_insertAll_of_not_mem (db : List PosRec) (vs : List Vessel)
    (now t : Int) (m : Nat) (h : ∀ w ∈ vs, w.mmsi ≠ m) :
    (insertAll db vs now).countP (hasKey m t) = db.countP (hasKey m t) := by
  induction vs generalizing db with
  | nil => rfl
  | cons w ws ih =>
    rw [insertAll_cons, ih _ (fun w' hw' => h w' (List.mem_cons_of_mem w hw')),
      countP_insertOrReplace_ne]
    intro hc
    exact h w (List.mem_cons_self w ws) hc.1

/-- After the insert loop, a vessel present in the batch has exactly one
row keyed `(mmsi, now)` — later upserts for the same MMSI overwrite
rather than duplicate. -/
theorem countP_insertAll_mem (db : List PosRec) (vs : List Vessel)
    (now : Int) (m : Nat) (h : ∃ w ∈ vs, w.mmsi = m) :
    (insertAll db vs now).countP (hasKey m now) = 1 := by
  induction vs generalizing db with
  | nil =>
    rcases h with ⟨w, hw, _⟩
    exact absurd hw (List.not_mem_nil w)
  | cons w ws ih =>
    rw [insertAll_cons]
    by_cases hws : ∃ w' ∈ ws, w'.mmsi = m
    · exact ih _ hws
    · have hwm : w.mmsi = m := by
        rcases h with ⟨w', hw', hm⟩
        rcases List.mem_cons.mp hw' with hh | hmem
        · rw [← hh]; exact hm
        · exact absurd ⟨w', hmem, hm⟩ hws
      have hnone : ∀ w' ∈ ws, w'.mmsi ≠ m := fun w' hw' hc => hws ⟨w', hw', hc⟩
      rw [countP_insertAll_of_not_mem _ _ _ _ _ hnone]
      have hself := countP_insertOrReplace_self db (vesselRow w now)
      simpa [vesselRow, hwm] using hself

/-- Upserting preserves distinctness of primary keys. -/
theorem nodup_insertOrReplace (db : List PosRec) (r : PosRec)
    (h : (db.map keyOf).Nodup) :
    ((insertOrReplace db r).map keyOf).Nodup := by
  rw [insertOrReplace, List.map_append, List.nodup_append]
  refine ⟨h.sublist ((List.filter_sublist db).map keyOf), by simp, ?_⟩
  intro a ha hb
  rcases List.mem_map.mp ha with ⟨q, hq, hkq⟩
  rcases List.mem_singleton.mp (by simpa using hb) with rfl
  have hcond := (List.mem_filter.mp hq).2
  rw [Bool.not_eq_true'] at hcond
  have hkeys : q.mmsi = r.mmsi ∧ q.timestamp = r.timestamp := by
    have h1 := congrArg Prod.fst hkq
    have h2 := congrArg Prod.snd hkq
    exact ⟨h1, h2⟩
  have htrue : hasKey r.mmsi r.timestamp q = true := by
    simp [hasKey, hkeys.1, hkeys.2]
  rw [htrue] at hcond
  exact Bool.noConfusion hcond

/-- The insert loop preserves distinctness of primary keys. -/
theorem nodup_insertAll (db : List PosRec) (vs : List Vessel) (now : Int)
    (h : (db.map keyOf).Nodup) :
    ((insertAll db vs now).map keyOf).Nodup := by
  induction vs generalizing db with
  | nil => exact h
  | cons w ws ih => exact ih _ (nodup_insertOrReplace db (vesselRow w now) h)

/-- Claim C6: the trail store keys rows by `(mmsi, ingestion instant)`
with upsert semantics. Re-insertion under an existing key overwrites
rather than duplicates; any number of observations for one vessel in one
cycle leaves exactly one row for that vessel keyed by the cycle's
instant; and distinctness of `(mmsi, timestamp)` keys is preserved by
every write cycle. -/
theorem save_positions_key_spec (db : List PosRec) (vessels : List Vessel)
    (now horizon : Int) (r : PosRec) (v : Vessel) :
    ((insertOrReplace db r).countP (hasKey r.mmsi r.timestamp) = 1) ∧
    (v ∈ vessels → 0 ≤ horizon →
      (save_positions db vessels now horizon).countP (hasKey v.mmsi now)
        = 1) ∧
    ((db.map keyOf).Nodup →
      ((save_positions db vessels now horizon).map keyOf).Nodup) := by
  refine ⟨countP_insertOrReplace_self db r, ?_, ?_⟩
  · intro hv hh
    have hne : ¬(vessels = []) := by
      intro he
      rw [he] at hv
      exact List.not_mem_nil v hv
    rw [save_positions, if_neg hne, prunePositions,
      countP_filter_of_imp _ _ _ (fun a ha => ?_)]
    · exact countP_insertAll_mem db vessels now v.mmsi ⟨v, hv, rfl⟩
    · rcases hasKey_eq_key ha with ⟨_, h2⟩
      rw [Bool.not_eq_true', decide_eq_false_iff_not]
      omega
  · intro hnd
    by_cases he : vessels = []
    · rw [save_positions, if_pos he]
      exact hnd
    · rw [save_positions, if_neg he]
      exact (nodup_insertAll db vessels now hnd).sublist
        ((List.filter_sublist _).map keyOf)

/-- Witness for C6: two same-cycle observations of MMSI `1` collapse to
one row keyed `(1, 10)`; upsert over a one-row table keeps one row; key
distinctness is preserved on a concrete table. -/
theorem save_positions_key_spec_witness :
    ((insertOrReplace [⟨1, 10, 0, 0, 0, 0⟩] ⟨1, 10, 7, 7, 0, 0⟩).countP
      (hasKey 1 10) = 1) ∧
    ((save_positions [⟨1, 0, 0, 0, 0, 0⟩]
        [⟨1, "A", 2, 2, 1, 0, 0, 0⟩, ⟨1, "A2", 3, 3, 1, 0, 0, 0⟩] 10 100).countP
      (hasKey 1 10) = 1) ∧
    ((save_positions [⟨1, 0, 0, 0, 0, 0⟩]
        [⟨1, "A", 2, 2, 1, 0, 0, 0⟩, ⟨1, "A2", 3, 3, 1, 0, 0, 0⟩] 10 100).map
      keyOf).Nodup := by
  have h := save_positions_key_spec [⟨1, 0, 0, 0, 0, 0⟩]
    [⟨1, "A", 2, 2, 1, 0, 0, 0⟩, ⟨1, "A2", 3, 3, 1, 0, 0, 0⟩] 10 100
    ⟨1, 10, 0, 0, 0, 0⟩ ⟨1, "A", 2, 2, 1, 0, 0, 0⟩
  have h1 := save_positions_key_spec [⟨1, 10, 0, 0, 0, 0⟩]
    [] 10 100 ⟨1, 10, 7, 7, 0, 0⟩ ⟨1, "A", 2, 2, 1, 0, 0, 0⟩
  exact ⟨h1.1, h.2.1 (by simp) (by decide), h.2.2 (by decide)⟩

/-- Counting features by MMSI in a `filterMap` whose producer stamps
each feature with its source MMSI, over a duplicate-free MMSI list:
the count is one exactly when the MMSI is listed and produces a
feature. -/
theorem countP_filterMap_mmsi (g : Nat → Option TrailFeature)
    (l : List Nat) (m : Nat)
    (hg : ∀ m' f, g m' = some f → f.mmsi = m') (hnd : l.Nodup) :
    (l.filterMap g).countP (fun f => f.mmsi == m) =
      if m ∈ l ∧ (g m).isSome then 1 else 0 := by
  induction l with
  | nil => simp
  | cons a l ih =>
    have hnd' : l.Nodup := hnd.of_cons
    cases ha : g a with
    | none =>
      rw [List.filterMap_cons_none ha, ih hnd']
      by_cases hma : m = a
      · subst hma
        simp [ha]
      · simp [List.mem_cons, hma]
    | some f =>
      rw [List.filterMap_cons_some ha, List.countP_cons]
      have hfm : f.mmsi = a := hg a f ha
      by_cases hma : m = a
      · subst hma
        have hnm : m ∉ l := (List.nodup_cons.mp hnd).1
        have hs : (g m).isSome = true := by rw [ha]; rfl
        rw [ih hnd', if_neg (fun hc => hnm hc.1)]
        simp [hfm, hs]
      · have : (f.mmsi == m) = false := by
          rw [hfm]
          exact beq_false_of_ne (fun hc => hma hc.symm)
        rw [this, ih hnd']
        simp [List.mem_cons, hma]

/-- The MMSI list of `build_trails` is duplicate-free (`GROUP BY`). -/
theorem trailMmsis_nodup (db : List PosRec) : (trailMmsis db).Nodup :=
  (List.nodup_dedup _).filter _

/-- Membership in the `GROUP BY ... HAVING cnt > 1` result. -/
theorem mem_trailMmsis (db : List PosRec) (m : Nat) :
    m ∈ trailMmsis db ↔ 1 < (positionsFor db m).length := by
  rw [trailMmsis, List.mem_filter]
  constructor
  · intro h
    simpa using h.2
  · intro h
    refine ⟨?_, by simpa using h⟩
    rw [List.mem_dedup]
    cases hps : positionsFor db m with
    | nil => rw [hps] at h; simp at h
    | cons r rest =>
      have hr : r ∈ positionsFor db m := by
        rw [hps]; exact List.mem_cons_self r rest
      rcases List.mem_filter.mp hr with ⟨hdb, hm⟩
      exact List.mem_map.mpr ⟨r, hdb, by simpa using hm⟩

/-- A vessel with more than one row yields a trail feature. -/
theorem mkTrail_isSome (db : List PosRec) (m : Nat)
    (h : 1 < (positionsFor db m).length) : (mkTrail db m).isSome = true := by
  simp only [mkTrail]
  have hlen : ¬((sortedPositions db m).length < 2) := by
    rw [sortedPositions, List.length_insertionSort]
    omega
  rw [if_neg hlen]
  rfl

/-- Every produced feature is stamped with its source MMSI. -/
theorem mkTrail_mmsi (db : List PosRec) (m : Nat) (f : TrailFeature)
    (h : mkTrail db m = some f) : f.mmsi = m := by
  simp only [mkTrail] at h
  split at h
  · exact Option.noConfusion h
  · exact Option.some.inj h ▸ rfl

/-- Field equations of a produced trail feature. -/
theorem mkTrail_eq (db : List PosRec) (m : Nat) (f : TrailFeature)
    (h : mkTrail db m = some f) :
    f.coordinates = (sortedPositions db m).map (fun r => (r.lon, r.lat)) ∧
    f.points = (sortedPositions db m).length ∧
    f.start = ((sortedPositions db m).headD defaultRec).timestamp ∧
    f.stop = ((sortedPositions db m).getLastD defaultRec).timestamp := by
  simp only [mkTrail] at h
  split at h
  · exact Option.noConfusion h
  · have h' := Option.some.inj h
    subst h'
    exact ⟨rfl, rfl, rfl, rfl⟩

/-- Claim C5: for every vessel with more than one stored row,
`build_trails` returns exactly one feature for it, whose coordinate
pairs are the vessel's rows ordered by timestamp ascending (a sorted
permutation of its rows, mapped to `(lon, lat)`), with point count and
the first and last timestamps of the ordered path; a vessel with exactly
one stored row yields no trail. -/
theorem build_trails_spec (db : List PosRec) (m : Nat) :
    (1 < (positionsFor db m).length →
      ((build_trails db).countP (fun f => f.mmsi == m) = 1 ∧
       ∀ f ∈ build_trails db, f.mmsi = m →
         f.coordinates =
           (sortedPositions db m).map (fun r => (r.lon, r.lat)) ∧
         List.Perm (sortedPositions db m) (positionsFor db m) ∧
         (sortedPositions db m).Pairwise
           (fun a b => a.timestamp ≤ b.timestamp) ∧
         f.points = (positionsFor db m).length ∧
         f.start = ((sortedPositions db m).headD defaultRec).timestamp ∧
         f.stop = ((sortedPositions db m).getLastD defaultRec).timestamp)) ∧
    ((positionsFor db m).length = 1 →
      (build_trails db).countP (fun f => f.mmsi == m) = 0) := by
  have hcount := countP_filterMap_mmsi (mkTrail db) (trailMmsis db) m
    (fun m' f h => mkTrail_mmsi db m' f h) (trailMmsis_nodup db)
  constructor
  · intro hlen
    constructor
    · rw [build_trails, hcount,
        if_pos ⟨(mem_trailMmsis db m).mpr hlen, mkTrail_isSome db m hlen⟩]
    · intro f hf hfm
      rcases List.mem_filterMap.mp hf with ⟨m', _, hsome⟩
      have hmm : m' = m := by rw [← mkTrail_mmsi db m' f hsome, hfm]
      subst hmm
      rcases mkTrail_eq db m' f hsome with ⟨h1, h2, h3, h4⟩
      refine ⟨h1, List.perm_insertionSort tsLE _,
        List.sorted_insertionSort tsLE _, ?_, h3, h4⟩
      rw [h2, sortedPositions, List.length_insertionSort]
  · intro hlen
    rw [build_trails, hcount, if_neg ?_]
    rintro ⟨hm, _⟩
    rw [mem_trailMmsis] at hm
    omega

/-- Witness for C5 on a concrete table: MMSI `1` has rows stamped `10`
and `0` (inserted out of order) and gets exactly one trail whose path is
a timestamp-sorted permutation of its rows; MMSI `2` has a single row
and gets none. -/
theorem build_trails_spec_witness :
    ((build_trails
        [⟨1, 10, 5, 6, 0, 0⟩, ⟨1, 0, 3, 4, 0, 0⟩, ⟨2, 0, 0, 0, 0, 0⟩]).countP
      (fun f => f.mmsi == 1) = 1) ∧
    List.Perm
      (sortedPositions
        [⟨1, 10, 5, 6, 0, 0⟩, ⟨1, 0, 3, 4, 0, 0⟩, ⟨2, 0, 0, 0, 0, 0⟩] 1)
      (positionsFor
        [⟨1, 10, 5, 6, 0, 0⟩, ⟨1, 0, 3, 4, 0, 0⟩, ⟨2, 0, 0, 0, 0, 0⟩] 1) ∧
    ((build_trails
        [⟨1, 10, 5, 6, 0, 0⟩, ⟨1, 0, 3, 4, 0, 0⟩, ⟨2, 0, 0, 0, 0, 0⟩]).countP
      (fun f => f.mmsi == 2) = 0) :=
  ⟨((build_trails_spec
      [⟨1, 10, 5, 6, 0, 0⟩, ⟨1, 0, 3, 4, 0, 0⟩, ⟨2, 0, 0, 0, 0, 0⟩] 1).1
      (by decide)).1,
   (((build_trails_spec
      [⟨1, 10, 5, 6, 0, 0⟩, ⟨1, 0, 3, 4, 0, 0⟩, ⟨2, 0, 0, 0, 0, 0⟩] 1).1
      (by decide)).2 ⟨1, [(4, 3), (6, 5)], 2, 0, 10⟩ (by decide) rfl).2.1,
   (build_trails_spec
      [⟨1, 10, 5, 6, 0, 0⟩, ⟨1, 0, 3, 4, 0, 0⟩, ⟨2, 0, 0, 0, 0, 0⟩] 2).2
      (by decide)⟩

/-- Claim C8: the freshness filter drops every raw record whose
feed-reported timestamp is older than the configured threshold
(`age_minutes > max_age_minutes`, stated division-free as
`60000 * maxAgeMin < 1000 * nowSec - tsExt`), while a record with a
zero/absent feed timestamp is never filtered by age and survives to the
output whenever it passes the geometry and bounding-box checks. -/
theorem freshness_filter_spec (meta : Nat → Option String) (bbox : Bbox)
    (nowSec maxAgeMin : Int) (f : RawFeature) :
    (f.tsExt ≠ 0 → 60000 * maxAgeMin < 1000 * nowSec - f.tsExt →
      processFeature meta bbox nowSec maxAgeMin f = none) ∧
    (f.tsExt = 0 → f.geomType = "Point" → 2 ≤ f.coordinates.length →
      bbox.latmin ≤ f.coordinates.getD 1 0 →
      f.coordinates.getD 1 0 ≤ bbox.latmax →
      bbox.lonmin ≤ f.coordinates.headD 0 →
      f.coordinates.headD 0 ≤ bbox.lonmax →
      (processFeature meta bbox nowSec maxAgeMin f).isSome = true) := by
  constructor
  · intro hts hage
    rw [processFeature]
    by_cases h1 : f.geomType ≠ "Point"
    · rw [if_pos h1]
    · rw [if_neg h1]
      by_cases h2 : f.coordinates.length < 2
      · rw [if_pos h2]
      · rw [if_neg h2]
        by_cases h3 : ¬(bbox.latmin ≤ f.coordinates.getD 1 0 ∧
          f.coordinates.getD 1 0 ≤ bbox.latmax ∧
          bbox.lonmin ≤ f.coordinates.headD 0 ∧
          f.coordinates.headD 0 ≤ bbox.lonmax)
        · rw [if_pos h3]
        · rw [if_neg h3,
            if_pos ⟨hts, by rw [isStale]; exact decide_eq_true hage⟩]
  · intro hts hgeom hlen hla1 hla2 hlo1 hlo2
    rw [processFeature, if_neg (fun hc => hc hgeom),
      if_neg (by omega),
      if_neg (fun hc => hc ⟨hla1, hla2, hlo1, hlo2⟩),
      if_neg (fun hc => hc.1 hts)]
    rfl

/-- Witness for C8: with `time.time() = 1200 s` and a 10-minute
threshold, a record stamped 1 ms after the epoch (about 20 minutes old)
is dropped, while the same record with timestamp `0` survives. -/
theorem freshness_filter_spec_witness :
    processFeature (fun _ => none) ⟨0, 10, 0, 10⟩ 1200 10
      ⟨"Point", [5, 5], 9, none, 1, 0, 0, 0⟩ = none ∧
    (processFeature (fun _ => none) ⟨0, 10, 0, 10⟩ 1200 10
      ⟨"Point", [5, 5], 9, none, 0, 0, 0, 0⟩).isSome = true :=
  ⟨(freshness_filter_spec (fun _ => none) ⟨0, 10, 0, 10⟩ 1200 10
      ⟨"Point", [5, 5], 9, none, 1, 0, 0, 0⟩).1 (by decide) (by decide),
   (freshness_filter_spec (fun _ => none) ⟨0, 10, 0, 10⟩ 1200 10
      ⟨"Point", [5, 5], 9, none, 0, 0, 0, 0⟩).2 rfl rfl (by decide)
     (by decide) (by decide) (by decide) (by decide)⟩

/-- Claim C9, counterexample: for a surviving observation with no
metadata name and no feed name, the code synthesizes `"MMSI-123"`, not
the claimed `"ID-123"`. -/
theorem name_fallback_cex :
    (processFeature (fun _ => none) ⟨0, 10, 0, 10⟩ 0 10
        ⟨"Point", [5, 5], 123, none, 0, 0, 0, 0⟩).map Vessel.name =
      some "MMSI-123" ∧
    ("MMSI-123" : String) ≠ "ID-" ++ toString 123 := by
  exact ⟨by decide, by decide⟩

/-- Claim C9, amended: for every surviving observation, the resolved
display name is the metadata lookup's name when that is non-empty,
otherwise the feed-provided name when present and non-empty, otherwise
the synthesized string `"MMSI-<id>"` (the code's prefix is `MMSI-`, not
the claimed `ID-`). -/
theorem resolved_name_spec (meta : Nat → Option String) (bbox : Bbox)
    (nowSec maxAgeMin : Int) (f : RawFeature) (v : Vessel)
    (h : processFeature meta bbox nowSec maxAgeMin f = some v) :
    v.name =
      match meta f.mmsi with
      | some s =>
        if s ≠ "" then s
        else
          match f.name with
          | some t => if t = "" then "MMSI-" ++ toString f.mmsi else t
          | none => "MMSI-" ++ toString f.mmsi
      | none =>
        match f.name with
        | some t => if t = "" then "MMSI-" ++ toString f.mmsi else t
        | none => "MMSI-" ++ toString f.mmsi := by
  rw [processFeature] at h
  split at h
  · exact Option.noConfusion h
  · split at h
    · exact Option.noConfusion h
    · split at h
      · exact Option.noConfusion h
      · split at h
        · exact Option.noConfusion h
        · have hv := Option.some.inj h
          subst hv
          cases hm : meta f.mmsi with
          | none =>
            cases hn : f.name with
            | none => simp [vesselName, hm, hn]
            | some t => simp [vesselName, hm, hn]
          | some s =>
            by_cases hs : s = ""
            · cases hn : f.name with
              | none => simp [vesselName, hm, hn, hs]
              | some t => simp [vesselName, hm, hn, hs]
            · simp [vesselName, hm, hs]

/-- Witness for C9's amended theorem: a metadata name `"ALPHA"` wins
over the feed name `"BETA"` for a surviving observation. -/
theorem resolved_name_spec_witness :
    (⟨123, "ALPHA", 5, 5, 0, 0, 0, 0⟩ : Vessel).name = "ALPHA" := by
  have h := resolved_name_spec (fun _ => some "ALPHA") ⟨0, 10, 0, 10⟩ 0 10
    ⟨"Point", [5, 5], 123, some "BETA", 0, 0, 0, 0⟩
    ⟨123, "ALPHA", 5, 5, 0, 0, 0, 0⟩ (by decide)
  exact h.trans (by decide)

end AisMonitor
